import Mathlib

/-!
# Verification of the Draw.io render widget (`src/widget.ts`)

Shallow embedding of the pure core of the `DrawioWidget` renderer:

* the style micro-parser `_parseStyle`;
* shape classification in `_createShape`;
* the two-pass layout / viewport computation in `_mxGraphToSvg`;
* edge endpoint clipping in `_createEdge`;
* multi-line label layout in `_createShape`;
* the page content pipeline `_renderPage` / `_loadDiagram` / `_renderDiagram`;
* the page-navigation state held in `_currentPage` / `_totalPages`;
* the codec `_decompressDiagram` (base64url + raw-deflate + percent-encoding).

JavaScript strings are modelled as `List Char` (Unicode scalar values),
JavaScript numbers as `ℚ` (all arithmetic used by the renderer is exact on
rationals), and platform primitives that are not part of the repository
(the DOM parser, `DecompressionStream`) as explicit function parameters.
-/

/-- JavaScript strings, modelled as lists of Unicode scalar values. -/
abbrev Str := List Char

/-- Coerce a Lean string literal to the `Str` model. -/
def str (s : String) : Str := s.data

/-- Whitespace as recognised by `String.prototype.trim` (the subset that the
diagrams' style strings can contain). -/
def isJsWs (c : Char) : Bool := c = ' ' || c = '\t' || c = '\n' || c = '\r'

/-- `String.prototype.trim`: drop surrounding whitespace. -/
def jsTrim (s : Str) : Str :=
  ((s.dropWhile isJsWs).reverse.dropWhile isJsWs).reverse

/-- `String.prototype.split(sep)` for a single-character separator, with the
JavaScript corner cases (`"".split(sep) = [""]`, empty fields kept). -/
def splitOnChar (sep : Char) : Str → List Str
  | [] => [[]]
  | c :: rest =>
    let r := splitOnChar sep rest
    if c = sep then [] :: r
    else
      match r with
      | [] => [[c]]
      | h :: t => (c :: h) :: t

/-- `String.prototype.includes(pat)`: substring test. -/
def hasSub (pat s : Str) : Bool :=
  match s with
  | [] => pat.isPrefixOf []
  | c :: rest => pat.isPrefixOf (c :: rest) || hasSub pat rest

/-! ## Style micro-parser (`_parseStyle`, widget.ts lines 594-608) -/

/-- Insert-or-overwrite into the association list modelling the JS
`Record<string, string>` built by `_parseStyle` (`result[key] = value`). -/
def upsert (m : List (Str × Str)) (k v : Str) : List (Str × Str) :=
  match m with
  | [] => [(k, v)]
  | (k0, v0) :: rest => if k0 = k then (k, v) :: rest else (k0, v0) :: upsert rest k v

/-- Property read on the record built by `_parseStyle` (`styles.foo`). -/
def styleGet (m : List (Str × Str)) (k : Str) : Option Str :=
  match m with
  | [] => none
  | (k0, v) :: rest => if k0 = k then some v else styleGet rest k

/-- One iteration of the `style.split(';').forEach(part => ...)` loop of
`_parseStyle`: `const [key, value] = part.split('=')` takes the first two
fields of the full split; the guard is `if (key && value !== undefined)`. -/
def styleStep (m : List (Str × Str)) (part : Str) : List (Str × Str) :=
  match splitOnChar '=' part with
  | key :: value :: _ => if key ≠ [] then upsert m (jsTrim key) (jsTrim value) else m
  | _ => m

/-- `_parseStyle` (widget.ts 594-608): `if (!style) return {}` then the
split-and-assign loop. -/
def parseStyle (style : Str) : List (Str × Str) :=
  if style = [] then []
  else (splitOnChar ';' style).foldl styleStep []

/-- Modelled from the spec (C2, amended): per-segment interpretation — split
the segment on `=`; the key is the first field and the value the second
(the text between the first and second `=`); the segment is dropped when it
has no `=` or its key is empty before trimming; key and value are trimmed. -/
def interpSegmentSpec (part : Str) : Option (Str × Str) :=
  match splitOnChar '=' part with
  | key :: value :: _ => if key ≠ [] then some (jsTrim key, jsTrim value) else none
  | _ => none

/-- Modelled from the spec (C2): the value of a key is the value of its last
declared valid segment (first match in the reversed segment list). -/
def specStyleLookup (k : Str) (style : Str) : Option Str :=
  styleGet (((splitOnChar ';' style).filterMap interpSegmentSpec).reverse) k

/-! ## Shape classification (`_createShape`, widget.ts lines 347-407) -/

/-- The vector primitive families emitted by `_createShape`. -/
inductive ShapeKind where
  | ellipse
  | rhombus
  | hexagon
  | triangle
  | cylinder
  | rect (rounded : Bool)
deriving DecidableEq, Repr

/-- `const shape = styles.shape || ''` in `_createShape`. -/
def shapeKeyOf (style : Str) : Str :=
  (styleGet (parseStyle style) (str "shape")).getD []

/-- `styles.rounded === '1'` in the default-rectangle branch of `_createShape`. -/
def roundedOf (style : Str) : Bool :=
  styleGet (parseStyle style) (str "rounded") = some (str "1")

/-- One branch condition of `_createShape`:
`shape === kw || style.includes(kw)`. -/
def shapeCond (kw style : Str) : Bool :=
  decide (shapeKeyOf style = kw) || hasSub kw style

/-- Shape selection of `_createShape` (widget.ts 347-407): an if/else chain
checking, per keyword, `shape === kw || style.includes(kw)`, defaulting to a
rectangle which is rounded when `styles.rounded === '1'`. -/
def classifyShape (style : Str) : ShapeKind :=
  if shapeCond (str "ellipse") style then .ellipse
  else if shapeCond (str "rhombus") style then .rhombus
  else if shapeCond (str "hexagon") style then .hexagon
  else if shapeCond (str "triangle") style then .triangle
  else if shapeCond (str "cylinder") style then .cylinder
  else .rect (roundedOf style)

/-- The fixed keyword priority order of shape selection. -/
def shapeKeywords : List (Str × ShapeKind) :=
  [(str "ellipse", .ellipse), (str "rhombus", .rhombus), (str "hexagon", .hexagon),
   (str "triangle", .triangle), (str "cylinder", .cylinder)]

/-- Modelled from the spec (C4, amended): the first keyword, in the fixed
priority order, whose name equals the `shape` style key or occurs as a
substring of the entire style string wins; otherwise a rectangle, rounded
exactly when the `rounded` style key equals `"1"`. -/
def classifyShapeSpec (style : Str) : ShapeKind :=
  match shapeKeywords.find? (fun kw => shapeCond kw.1 style) with
  | some kw => kw.2
  | none => .rect (roundedOf style)

/-! ## Data model: cells and geometry (`_mxGraphToSvg`, widget.ts 221-324) -/

/-- An `mxGeometry` element: the numeric attributes `x`, `y`, `width`,
`height` may each be absent; an edge geometry may carry explicit
`mxPoint[as="sourcePoint"]` / `mxPoint[as="targetPoint"]` children and a
sequence of role-less `mxPoint` waypoints (in document order). -/
structure Geom where
  x : Option ℚ
  y : Option ℚ
  width : Option ℚ
  height : Option ℚ
  sourcePoint : Option (ℚ × ℚ)
  targetPoint : Option (ℚ × ℚ)
  waypoints : List (ℚ × ℚ)
deriving DecidableEq

/-- An `mxCell` element, with the attributes read by `_mxGraphToSvg`:
`vertex` / `edge` model `getAttribute(...) === '1'`, and `style`, `value`,
`source`, `target` model `getAttribute(...) || ''`. -/
structure Cell where
  id : Str
  vertex : Bool
  edge : Bool
  geometry : Option Geom
  style : Str
  value : Str
  source : Str
  target : Str
deriving DecidableEq

/-- A resolved vertex bounding box. -/
structure Box where
  x : ℚ
  y : ℚ
  width : ℚ
  height : ℚ
deriving DecidableEq

/-- The box read from a geometry in both passes of `_mxGraphToSvg`:
`parseFloat(geometry.getAttribute('x') || '0')` etc., so `x`/`y` default to
0, `width` to 100 and `height` to 40. -/
def boxOfGeom (g : Geom) : Box :=
  ⟨g.x.getD 0, g.y.getD 0, g.width.getD 100, g.height.getD 40⟩

/-- Pass 1 of `_mxGraphToSvg` (widget.ts 257-269): the VertexBox table,
recording a box for every cell with a geometry and `vertex="1"`, keyed by id
in cell order. -/
def vertexBoxes (cells : List Cell) : List (Str × Box) :=
  cells.filterMap fun c =>
    match c.geometry with
    | some g => if c.vertex then some (c.id, boxOfGeom g) else none
    | none => none

/-- Generic association-list read; on the reversed table it models
`Map.get` for a map built by repeated `Map.set` (last write wins). -/
def assocGet (t : List (Str × Box)) (k : Str) : Option Box :=
  match t with
  | [] => none
  | (k0, b) :: rest => if k0 = k then some b else assocGet rest k

/-- `vertices.get(id)` in `_mxGraphToSvg`: the last `Map.set` for an id wins. -/
def vertexLookup (cells : List Cell) (id : Str) : Option Box :=
  assocGet (vertexBoxes cells).reverse id

/-- The running min/max state of `_mxGraphToSvg` pass 2; `none` models the
`Infinity` / `-Infinity` initial values. -/
structure Bnds where
  minX : Option ℚ
  minY : Option ℚ
  maxX : Option ℚ
  maxY : Option ℚ
deriving DecidableEq

/-- Fold the running min with one value (`minX = Math.min(minX, x)` where
`none` stands for the `Infinity` start). -/
def minO (acc : Option ℚ) (v : ℚ) : Option ℚ :=
  match acc with
  | none => some v
  | some m => some (min m v)

/-- Fold the running max with one value. -/
def maxO (acc : Option ℚ) (v : ℚ) : Option ℚ :=
  match acc with
  | none => some v
  | some m => some (max m v)

/-- Accumulate one box into the running bounds (`minX = Math.min(minX, x)`,
..., `maxY = Math.max(maxY, y + height)`). -/
def boxStep (b : Bnds) (bx : Box) : Bnds :=
  ⟨minO b.minX bx.x, minO b.minY bx.y,
   maxO b.maxX (bx.x + bx.width), maxO b.maxY (bx.y + bx.height)⟩

/-- One iteration of pass 2 of `_mxGraphToSvg` restricted to the bounds
tracking: only cells with `geometry && vertex` update the running min/max. -/
def bndsStep (b : Bnds) (c : Cell) : Bnds :=
  match c.geometry with
  | some g => if c.vertex then boxStep b (boxOfGeom g) else b
  | none => b

/-- The published viewport of `_mxGraphToSvg` (widget.ts 311-318): the
running bounds padded by 30 on every side
(`minX - padding, minY - padding, maxX - minX + 2*padding,
maxY - minY + 2*padding`), or the fixed `0 0 400 300` canvas when no vertex
updated the bounds. -/
def viewport (cells : List Cell) : ℚ × ℚ × ℚ × ℚ :=
  let b := cells.foldl bndsStep ⟨none, none, none, none⟩
  match b.minX, b.minY, b.maxX, b.maxY with
  | some mnX, some mnY, some mxX, some mxY =>
    (mnX - 30, mnY - 30, mxX - mnX + 2 * 30, mxY - mnY + 2 * 30)
  | _, _, _, _ => (0, 0, 400, 300)

/-- Modelled from the spec (C5): the viewport is the min/max bounding
rectangle over `x`, `y`, `x+width`, `y+height` of all vertex boxes, expanded
by exactly 30 layout units on every side, and the fixed `(0, 0, 400, 300)`
canvas when there is no vertex box. -/
def specViewport (boxes : List Box) : ℚ × ℚ × ℚ × ℚ :=
  match boxes with
  | [] => (0, 0, 400, 300)
  | b0 :: rest =>
    let mnX := (rest.map Box.x).foldl min b0.x
    let mnY := (rest.map Box.y).foldl min b0.y
    let mxX := (rest.map (fun b => b.x + b.width)).foldl max (b0.x + b0.width)
    let mxY := (rest.map (fun b => b.y + b.height)).foldl max (b0.y + b0.height)
    (mnX - 30, mnY - 30, mxX - mnX + 60, mxY - mnY + 60)

/-! ## Edge endpoints (`_createEdge`, widget.ts 471-538) -/

/-- `Math.abs(d || 1)`: the absolute value, with 0 replaced by 1 before
taking it (the `dx || 1` / `dy || 1` guards of `_createEdge`). -/
def absOr1 (d : ℚ) : ℚ :=
  if d = 0 then 1 else |d|

/-- The clipped endpoints computed by `_createEdge` (widget.ts 497-521) when
both endpoint boxes resolve: start from the box centers; when the centers
differ (`len > 0`, modelled as `dx*dx + dy*dy > 0` to avoid the square
root), pull each center toward the other by
`min(min(halfWidth/|dx or 1|, halfHeight/|dy or 1|), 0.5)` times `(dx, dy)`.
The JS `|| 0` on each ratio only replaces `NaN`, which cannot arise here. -/
def edgeEndpoints (source target : Box) : (ℚ × ℚ) × (ℚ × ℚ) :=
  let x1 := source.x + source.width / 2
  let y1 := source.y + source.height / 2
  let x2 := target.x + target.width / 2
  let y2 := target.y + target.height / 2
  let dx := x2 - x1
  let dy := y2 - y1
  if dx * dx + dy * dy > 0 then
    let sourceRatio := min (source.width / 2 / absOr1 dx) (source.height / 2 / absOr1 dy)
    let targetRatio := min (target.width / 2 / absOr1 dx) (target.height / 2 / absOr1 dy)
    ((x1 + dx * min sourceRatio (1 / 2), y1 + dy * min sourceRatio (1 / 2)),
     (x2 - dx * min targetRatio (1 / 2), y2 - dy * min targetRatio (1 / 2)))
  else
    ((x1, y1), (x2, y2))

/-- A box center abscissa (`source.x + source.width / 2`). -/
def centerX (b : Box) : ℚ := b.x + b.width / 2

/-- A box center ordinate (`source.y + source.height / 2`). -/
def centerY (b : Box) : ℚ := b.y + b.height / 2

/-- Modelled from the spec (C3): the clipping ratio
`min(halfWidth/|dx|, halfHeight/|dy|)` capped at 0.5. -/
def clipRatio (b : Box) (dx dy : ℚ) : ℚ :=
  min (min (b.width / 2 / |dx|) (b.height / 2 / |dy|)) (1 / 2)

/-- The polyline of the path emitted by `_createEdge`: explicit
source/target points when both are present, else the clipped box endpoints
when both boxes resolve, else no path; role-less waypoints are inserted in
document order between start and end. -/
def createEdgePath (g : Option Geom) (source target : Option Box) :
    Option (List (ℚ × ℚ)) :=
  let wps := (g.map Geom.waypoints).getD []
  match g.bind Geom.sourcePoint, g.bind Geom.targetPoint with
  | some p1, some p2 => some ([p1] ++ wps ++ [p2])
  | _, _ =>
    match source, target with
    | some s, some t =>
      let e := edgeEndpoints s t
      some ([e.1] ++ wps ++ [e.2])
    | _, _ => none

/-! ## Label layout (`_createShape`, widget.ts 427-463) -/

/-- Consume a case-insensitive line-break tag `<br\s*\/?>` at the head of
the string, returning the remainder (the tail of the alternation
`/\n|<br\s*\/?>/i` used by `_createShape`). -/
def brClose : Str → Option Str
  | [] => none
  | '/' :: '>' :: rest => some rest
  | '>' :: rest => some rest
  | c :: rest => if isJsWs c then brClose rest else none

/-- Match `<br`, case-insensitively, then delegate to `brClose`. -/
def matchBr : Str → Option Str
  | '<' :: c1 :: c2 :: rest =>
    if (c1 = 'b' ∨ c1 = 'B') ∧ (c2 = 'r' ∨ c2 = 'R') then brClose rest else none
  | _ => none

/-- Fuelled worker for `cleanText.split(/\n|<br\s*\/?>/i)`: scan the text,
breaking at literal newlines and at line-break tags; `cur` holds the current
line reversed. The fuel is only a termination device — it never runs out
when it starts at the text's length. -/
def splitLinesAux : Nat → Str → Str → List Str
  | _, [], cur => [cur.reverse]
  | 0, _ :: _, cur => [cur.reverse]
  | fuel + 1, c :: rest, cur =>
    if c = '\n' then cur.reverse :: splitLinesAux fuel rest []
    else
      match matchBr (c :: rest) with
      | some rest2 => cur.reverse :: splitLinesAux fuel rest2 []
      | none => splitLinesAux fuel rest (c :: cur)

/-- `cleanText.split(/\n|<br\s*\/?>/i)` in `_createShape`. -/
def splitLines (s : Str) : List Str :=
  splitLinesAux s.length s []

/-- One rendered `tspan` of a multi-line label: centered x, computed y, and
the trimmed line text. -/
structure Tspan where
  x : ℚ
  y : ℚ
  text : Str
deriving DecidableEq

/-- The text layout produced by `_createShape` for a label. -/
inductive Label where
  | single (text : Str)
  | multi (spans : List Tspan)
deriving DecidableEq

/-- The label layout of `_createShape` (widget.ts 427-463) for a vertex box
`(x, y, width, height)` and (already markup-stripped) label text: split into
lines; a single line is rendered as plain text content; otherwise one
`tspan` per line at `x + width/2`, starting at
`y + height/2 - (lines - 1) * lineHeight / 2` and stepping by
`lineHeight = fontSize * 1.2`, each line trimmed. -/
def renderLabel (x y width height fontSize : ℚ) (cleanText : Str) : Label :=
  let lines := splitLines cleanText
  if lines.length = 1 then .single cleanText
  else
    let lineHeight := fontSize * (6 / 5)
    let startY := y + height / 2 - ((lines.length : ℚ) - 1) * lineHeight / 2
    .multi (lines.enum.map fun p =>
      ⟨x + width / 2, startY + (p.1 : ℚ) * lineHeight, jsTrim p.2⟩)

/-! ## Page rendering pipeline (`_renderPage`, widget.ts 116-167) -/

/-- The error outcomes of the rendering pipeline; `decodeError` stands for
any failure thrown by the codec (`atob`, the decompression stream, or
percent-decoding), `unparsableContent` for
`'Could not parse diagram content'`. -/
inductive RenderErr where
  | decodeError (msg : Str)
  | unparsableContent
deriving DecidableEq

/-- The marker substring checked by `_renderPage`. -/
def mxTag : Str := str "<mxGraphModel"

/-- A selected `diagram` page element: an optional embedded uncompressed
`mxGraphModel` child, and the text payload (`diagram.textContent || ''`). -/
structure Page (α : Type) where
  embedded : Option α
  text : Str

/-- The model-extraction tail of `_renderPage` (widget.ts 157-166): if the
content contains `<mxGraphModel`, parse it and render the model when found;
in every other case throw `'Could not parse diagram content'`. The inner
DOM parse is the platform parameter `extract`. -/
def extractStage {α : Type} (extract : Str → Option α) (content : Str) :
    Except RenderErr α :=
  if hasSub mxTag content then
    match extract content with
    | some m => Except.ok m
    | none => Except.error RenderErr.unparsableContent
  else Except.error RenderErr.unparsableContent

/-- The per-page content pipeline of `_renderPage` (widget.ts 139-166),
with the codec `decompress` and the platform DOM extraction `extract` as
parameters. Returns the render result together with a flag recording
whether the codec was invoked. An embedded uncompressed model is rendered
directly; otherwise, when the payload is non-empty and lacks
`<mxGraphModel`, decompression is attempted and any codec failure is caught
(`catch (e) { console.warn(...) }`), keeping the original payload. -/
def renderPageContent {α : Type} (decompress : Str → Except RenderErr Str)
    (extract : Str → Option α) (page : Page α) : Except RenderErr α × Bool :=
  match page.embedded with
  | some m => (Except.ok m, false)
  | none =>
    if page.text ≠ [] ∧ ¬ hasSub mxTag page.text then
      match decompress page.text with
      | Except.ok s => (extractStage extract s, true)
      | Except.error _ => (extractStage extract page.text, true)
    else (extractStage extract page.text, false)

/-! ## Document loading (`_loadDiagram` 63-87 / `_renderDiagram` 92-111) -/

/-- The outcome of the platform markup parse (`DOMParser.parseFromString`
followed by the `parsererror` query): either a parse-error marker node with
its diagnostic text, or a parsed document. -/
inductive ParseOutcome (δ : Type) where
  | parseError (diag : Str)
  | ok (doc : δ)

/-- The document-level failures of `_loadDiagram` / `_renderDiagram`:
`'Empty diagram file'` and `'Invalid XML: ' + diagnostic`. -/
inductive LoadErr where
  | emptyDocument
  | invalidDocument (msg : Str)
deriving DecidableEq

/-- The front gate of the load pipeline: `_loadDiagram` throws
`'Empty diagram file'` when `!content || content.trim() === ''` (before any
parsing), then `_renderDiagram` parses and throws
`'Invalid XML: ' + parseError.textContent` on a parse-error marker node;
otherwise the parsed document flows on to page rendering. -/
def loadDiagram {δ : Type} (parse : Str → ParseOutcome δ) (content : Str) :
    Except LoadErr δ :=
  if content = [] ∨ jsTrim content = [] then Except.error LoadErr.emptyDocument
  else
    match parse content with
    | ParseOutcome.parseError diag =>
      Except.error (LoadErr.invalidDocument (str "Invalid XML: " ++ diag))
    | ParseOutcome.ok d => Except.ok d

/-! ## Page controller (`_setupPageNavigation` 622-649, `_renderDiagram` 104) -/

/-- The page-navigation state of the widget: `_currentPage` and
`_totalPages`. -/
structure PCState where
  currentPage : Nat
  totalPages : Nat
deriving DecidableEq

/-- The constructor state: `_currentPage = 0`, `_totalPages = 1`. -/
def pcInit : PCState := ⟨0, 1⟩

/-- The `nextPage` click handler:
`if (this._currentPage < this._totalPages - 1) this._currentPage++`. -/
def pcNext (s : PCState) : PCState :=
  if s.currentPage < s.totalPages - 1 then ⟨s.currentPage + 1, s.totalPages⟩ else s

/-- The `prevPage` click handler:
`if (this._currentPage > 0) this._currentPage--`. -/
def pcPrev (s : PCState) : PCState :=
  if 0 < s.currentPage then ⟨s.currentPage - 1, s.totalPages⟩ else s

/-- A (re)load with `n` page elements: `_renderDiagram` sets
`_totalPages = diagrams.length || 1` and leaves `_currentPage` untouched. -/
def pcLoad (n : Nat) (s : PCState) : PCState :=
  ⟨s.currentPage, if n = 0 then 1 else n⟩

/-- The states reachable by the widget's page controller: the constructor
state, closed under next/prev navigation and content (re)loads. -/
inductive PCReach : PCState → Prop where
  | init : PCReach pcInit
  | next {s : PCState} : PCReach s → PCReach (pcNext s)
  | prev {s : PCState} : PCReach s → PCReach (pcPrev s)
  | load {s : PCState} (n : Nat) : PCReach s → PCReach (pcLoad n s)

/-- The states reachable by navigation alone after a single fresh load
(no content-change reload). -/
inductive PCNavReach : PCState → Prop where
  | loaded (n : Nat) : PCNavReach (pcLoad n pcInit)
  | next {s : PCState} : PCNavReach s → PCNavReach (pcNext s)
  | prev {s : PCState} : PCNavReach s → PCNavReach (pcPrev s)

/-! ## Codec (`_decompressDiagram`, widget.ts 172-207)

The codec composes platform primitives: `atob` after translating the
URL-safe base64 alphabet, a `DecompressionStream('deflate-raw')` consumed
chunk by chunk, `TextDecoder` and `decodeURIComponent`. Base64, UTF-8 and
percent-coding are modelled concretely below; the raw-deflate pair is kept
abstract (an `inflate` function producing the stream's ordered chunk list)
since its bit-level format is opaque to the widget, which only relies on it
inverting the compressor. -/

/-- An uppercase hexadecimal digit, as `encodeURIComponent` emits. -/
def hexDigitChar (n : Nat) : Char :=
  if n < 10 then Char.ofNat (48 + n) else Char.ofNat (55 + n)

/-- The value of a hexadecimal digit (either case), as `decodeURIComponent`
accepts. -/
def hexVal (c : Char) : Option Nat :=
  if '0' ≤ c ∧ c ≤ '9' then some (c.toNat - 48)
  else if 'A' ≤ c ∧ c ≤ 'F' then some (c.toNat - 55)
  else if 'a' ≤ c ∧ c ≤ 'f' then some (c.toNat - 87)
  else none

/-- The UTF-8 bytes of one Unicode scalar value. -/
def charUtf8 (n : Nat) : List Nat :=
  if n < 128 then [n]
  else if n < 2048 then [192 + n / 64, 128 + n % 64]
  else if n < 65536 then [224 + n / 4096, 128 + n / 64 % 64, 128 + n % 64]
  else [240 + n / 262144, 128 + n / 4096 % 64, 128 + n / 64 % 64, 128 + n % 64]

/-- UTF-8 encoding of a string (`TextEncoder` / the byte view taken by the
forward transform before deflate). -/
def utf8Encode (s : Str) : List Nat :=
  s.flatMap (fun c => charUtf8 c.toNat)

/-- Decode one UTF-8 scalar value from the head of a byte list, returning
it with the remaining bytes. -/
def utf8DecodeOne : List Nat → Option (Nat × List Nat)
  | [] => none
  | b :: rest =>
    if b < 128 then some (b, rest)
    else if b < 192 then none
    else if b < 224 then
      match rest with
      | b1 :: r =>
        if 128 ≤ b1 ∧ b1 < 192 then some ((b - 192) * 64 + (b1 - 128), r) else none
      | [] => none
    else if b < 240 then
      match rest with
      | b1 :: b2 :: r =>
        if (128 ≤ b1 ∧ b1 < 192) ∧ (128 ≤ b2 ∧ b2 < 192) then
          some ((b - 224) * 4096 + (b1 - 128) * 64 + (b2 - 128), r)
        else none
      | _ => none
    else if b < 248 then
      match rest with
      | b1 :: b2 :: b3 :: r =>
        if (128 ≤ b1 ∧ b1 < 192) ∧ (128 ≤ b2 ∧ b2 < 192) ∧ (128 ≤ b3 ∧ b3 < 192) then
          some ((b - 240) * 262144 + (b1 - 128) * 4096 + (b2 - 128) * 64 + (b3 - 128), r)
        else none
      | _ => none
    else none

/-- Fuelled UTF-8 decoding of a whole byte list (`TextDecoder`, modelled
strictly: invalid input fails instead of producing replacement characters —
the round trip never decodes invalid input). The fuel never runs out when
it starts at the byte count. -/
def utf8DecodeAux : Nat → List Nat → Option Str
  | _, [] => some []
  | 0, _ :: _ => none
  | fuel + 1, b :: l =>
    match utf8DecodeOne (b :: l) with
    | some (n, rest) =>
      if Nat.isValidChar n then (utf8DecodeAux fuel rest).map (fun cs => Char.ofNat n :: cs)
      else none
    | none => none

/-- UTF-8 decoding of a byte list. -/
def utf8Decode (l : List Nat) : Option Str :=
  utf8DecodeAux l.length l

/-- The standard base64 alphabet character for a 6-bit value. -/
def b64Char (n : Nat) : Char :=
  if n < 26 then Char.ofNat (65 + n)
  else if n < 52 then Char.ofNat (97 + (n - 26))
  else if n < 62 then Char.ofNat (48 + (n - 52))
  else if n = 62 then '+'
  else '/'

/-- The 6-bit value of a standard base64 alphabet character. -/
def b64CharVal (c : Char) : Option Nat :=
  if 'A' ≤ c ∧ c ≤ 'Z' then some (c.toNat - 65)
  else if 'a' ≤ c ∧ c ≤ 'z' then some (c.toNat - 97 + 26)
  else if '0' ≤ c ∧ c ≤ '9' then some (c.toNat - 48 + 52)
  else if c = '+' then some 62
  else if c = '/' then some 63
  else none

/-- Standard base64 encoding of a byte list, with `=` padding (`btoa`). -/
def b64Encode : List Nat → Str
  | [] => []
  | [a] => [b64Char (a / 4), b64Char (a % 4 * 16), '=', '=']
  | [a, b] => [b64Char (a / 4), b64Char (a % 4 * 16 + b / 16), b64Char (b % 16 * 4), '=']
  | a :: b :: c :: rest =>
    b64Char (a / 4) :: b64Char (a % 4 * 16 + b / 16) :: b64Char (b % 16 * 4 + c / 64) ::
      b64Char (c % 64) :: b64Encode rest

/-- Standard base64 decoding to bytes (`atob` followed by the
`charCodeAt` loop of `_decompressDiagram`), for padded input as produced by
`b64Encode`. -/
def b64Decode : Str → Option (List Nat)
  | [] => some []
  | c1 :: c2 :: c3 :: c4 :: rest =>
    match b64CharVal c1, b64CharVal c2 with
    | some v1, some v2 =>
      if c3 = '=' then
        if c4 = '=' ∧ rest = [] then some [v1 * 4 + v2 / 16] else none
      else
        match b64CharVal c3 with
        | some v3 =>
          if c4 = '=' then
            if rest = [] then some [v1 * 4 + v2 / 16, v2 % 16 * 16 + v3 / 4] else none
          else
            match b64CharVal c4 with
            | some v4 =>
              (b64Decode rest).map
                (fun bs => (v1 * 4 + v2 / 16) :: (v2 % 16 * 16 + v3 / 4) :: (v3 % 4 * 64 + v4) :: bs)
            | none => none
        | none => none
    | _, _ => none
  | _ => none

/-- The URL-safe alphabet substitution of the forward transform
(`+`→`-`, `/`→`_`). -/
def toUrlSafe (c : Char) : Char :=
  if c = '+' then '-' else if c = '/' then '_' else c

/-- The reverse translation performed by `_decompressDiagram`:
replace every `-` with `+` and every `_` with `/`, per character. -/
def fromUrlSafe (c : Char) : Char :=
  if c = '-' then '+' else if c = '_' then '/' else c

/-- The characters `encodeURIComponent` leaves unescaped:
`A-Z a-z 0-9 - _ . ! ~ * ' ( )`. -/
def uriUnreserved (c : Char) : Bool :=
  (decide ('A' ≤ c) && decide (c ≤ 'Z')) || (decide ('a' ≤ c) && decide (c ≤ 'z')) ||
  (decide ('0' ≤ c) && decide (c ≤ '9')) ||
  decide (c = '-') || decide (c = '_') || decide (c = '.') || decide (c = '!') ||
  decide (c = '~') || decide (c = '*') || decide (c = '\'') || decide (c = '(') ||
  decide (c = ')')

/-- The `%XX` escape of one byte. -/
def escByte (b : Nat) : Str :=
  ['%', hexDigitChar (b / 16), hexDigitChar (b % 16)]

/-- `encodeURIComponent` on one character: unreserved characters stand for
themselves, everything else is escaped per UTF-8 byte. -/
def percentEncodeChar (c : Char) : Str :=
  if uriUnreserved c then [c] else (charUtf8 c.toNat).flatMap escByte

/-- `encodeURIComponent` (the first step of the forward transform). -/
def percentEncode (s : Str) : Str :=
  s.flatMap percentEncodeChar

/-- An intermediate token of percent-decoding: a literal character or the
byte of one `%XX` escape. -/
inductive PctTok where
  | ch (c : Char)
  | byte (b : Nat)
deriving DecidableEq

/-- Lexing phase of `decodeURIComponent`: each `%` must be followed by two
hexadecimal digits and yields a byte; other characters stand for
themselves. -/
def pctTokens : Str → Option (List PctTok)
  | [] => some []
  | c :: rest =>
    if c = '%' then
      match rest with
      | h1 :: h2 :: rest2 =>
        match hexVal h1, hexVal h2 with
        | some v1, some v2 => (pctTokens rest2).map (fun ts => PctTok.byte (v1 * 16 + v2) :: ts)
        | _, _ => none
      | _ => none
    else (pctTokens rest).map (fun ts => PctTok.ch c :: ts)

/-- Decode one UTF-8 scalar value whose leading byte is `b` and whose
continuation bytes must be the next (escaped) tokens, returning the value
and the remaining tokens. -/
def pctDecodeOne (b : Nat) (rest : List PctTok) : Option (Nat × List PctTok) :=
  if b < 128 then some (b, rest)
  else if b < 192 then none
  else if b < 224 then
    match rest with
    | PctTok.byte b1 :: r =>
      if 128 ≤ b1 ∧ b1 < 192 then some ((b - 192) * 64 + (b1 - 128), r) else none
    | _ => none
  else if b < 240 then
    match rest with
    | PctTok.byte b1 :: PctTok.byte b2 :: r =>
      if (128 ≤ b1 ∧ b1 < 192) ∧ (128 ≤ b2 ∧ b2 < 192) then
        some ((b - 224) * 4096 + (b1 - 128) * 64 + (b2 - 128), r)
      else none
    | _ => none
  else if b < 248 then
    match rest with
    | PctTok.byte b1 :: PctTok.byte b2 :: PctTok.byte b3 :: r =>
      if (128 ≤ b1 ∧ b1 < 192) ∧ (128 ≤ b2 ∧ b2 < 192) ∧ (128 ≤ b3 ∧ b3 < 192) then
        some ((b - 240) * 262144 + (b1 - 128) * 4096 + (b2 - 128) * 64 + (b3 - 128), r)
      else none
    | _ => none
  else none

/-- Decoding phase of `decodeURIComponent`: literal characters pass
through; an escaped byte must begin a full, contiguously escaped UTF-8
sequence, which decodes to its scalar value. The fuel never runs out when
it starts at the token count. -/
def pctDetokAux : Nat → List PctTok → Option Str
  | _, [] => some []
  | 0, _ :: _ => none
  | fuel + 1, PctTok.ch c :: rest => (pctDetokAux fuel rest).map (fun cs => c :: cs)
  | fuel + 1, PctTok.byte b :: rest =>
    match pctDecodeOne b rest with
    | some (n, rest2) =>
      if Nat.isValidChar n then (pctDetokAux fuel rest2).map (fun cs => Char.ofNat n :: cs)
      else none
    | none => none

/-- `decodeURIComponent` (the last step of `_decompressDiagram`). -/
def percentDecode (s : Str) : Option Str :=
  (pctTokens s).bind (fun ts => pctDetokAux ts.length ts)

/-- The token list produced by lexing `percentEncode`'s output (proof
helper). -/
def encTokens (cs : Str) : List PctTok :=
  cs.flatMap (fun c =>
    if uriUnreserved c then [PctTok.ch c] else (charUtf8 c.toNat).map PctTok.byte)

/-- `_decompressDiagram` (widget.ts 172-207): translate the URL-safe
alphabet back, base64-decode to bytes, inflate (the abstract
`DecompressionStream('deflate-raw')`, whose output chunks are concatenated
in order by the read loop), UTF-8 decode, percent-decode. Every failing
step makes the whole codec fail. -/
def decompressDiagram (inflate : List Nat → Option (List (List Nat)))
    (compressed : Str) : Option Str :=
  (b64Decode (compressed.map fromUrlSafe)).bind fun bytes =>
  (inflate bytes).bind fun chunks =>
  (utf8Decode chunks.flatten).bind fun text =>
  percentDecode text

/-- Modelled from the spec (C1): the forward transform that produced the
stored payload — URI-component-encode, raw-deflate compress (abstract),
base64url-encode. -/
def forwardTransform (deflate : List Nat → List Nat) (s : Str) : Str :=
  (b64Encode (deflate (utf8Encode (percentEncode s)))).map toUrlSafe

/-!
# Theorems
-/

theorem styleGet_upsert (m : List (Str × Str)) (k v k2 : Str) :
    styleGet (upsert m k v) k2 = if k = k2 then some v else styleGet m k2 := by
  induction m with
  | nil => simp [upsert, styleGet]
  | cons hd tl ih =>
    obtain ⟨k0, v0⟩ := hd
    by_cases h0 : k0 = k
    · subst h0
      by_cases h2 : k0 = k2 <;> simp [upsert, styleGet, h2]
    · by_cases h2 : k0 = k2
      · subst h2
        have : k ≠ k0 := fun h => h0 h.symm
        simp [upsert, styleGet, h0, this]
      · simp [upsert, styleGet, h0, h2, ih]

theorem styleGet_append (l1 l2 : List (Str × Str)) (k : Str) :
    styleGet (l1 ++ l2) k =
      match styleGet l1 k with
      | some v => some v
      | none => styleGet l2 k := by
  induction l1 with
  | nil => simp [styleGet]
  | cons hd tl ih =>
    obtain ⟨k0, v0⟩ := hd
    by_cases h : k0 = k <;> simp [styleGet, h, ih]

theorem styleStep_interp (m : List (Str × Str)) (part : Str) :
    styleStep m part =
      match interpSegmentSpec part with
      | some (k, v) => upsert m k v
      | none => m := by
  unfold styleStep interpSegmentSpec
  cases splitOnChar '=' part with
  | nil => rfl
  | cons key rest =>
    cases rest with
    | nil => rfl
    | cons value rest2 =>
      by_cases h : key = ([] : Str) <;> simp [h]

theorem foldl_styleStep_get (parts : List Str) (m : List (Str × Str)) (k : Str) :
    styleGet (parts.foldl styleStep m) k =
      match styleGet ((parts.filterMap interpSegmentSpec).reverse) k with
      | some v => some v
      | none => styleGet m k := by
  induction parts generalizing m with
  | nil => simp [styleGet]
  | cons p rest ih =>
    rw [List.foldl_cons, ih]
    rw [List.filterMap_cons]
    cases hp : interpSegmentSpec p with
    | none => simp [styleStep_interp, hp]
    | some kv =>
      obtain ⟨k0, v0⟩ := kv
      rw [List.reverse_cons, styleGet_append]
      rw [styleStep_interp, hp, styleGet_upsert]
      cases hrest : styleGet ((rest.filterMap interpSegmentSpec).reverse) k with
      | some v => simp
      | none =>
        by_cases h0 : k0 = k <;> simp [styleGet, h0]

/-- Claim C2 (amended): `_parseStyle` splits on `;` into segments and splits
each segment on `=`, taking the first field as key and the second field (the
text between the first and second `=`) as value, so `"a=b=c"` maps `a` to
`"b"`; segments with no `=` or an empty untrimmed key are dropped; key and
value are trimmed; duplicate keys resolve to the last declared value; the
parser is total and returns the empty map on empty input. -/
theorem c2_style_parser_amended :
    (∀ style k, styleGet (parseStyle style) k = specStyleLookup k style)
    ∧ parseStyle [] = []
    ∧ parseStyle (str " ") = []
    ∧ styleGet (parseStyle (str "a=1;a=2")) (str "a") = some (str "2")
    ∧ styleGet (parseStyle (str "a=b=c")) (str "a") = some (str "b") := by
  refine ⟨?_, rfl, by decide, by decide, by decide⟩
  intro style k
  unfold parseStyle specStyleLookup
  by_cases h : style = []
  · subst h
    simp [splitOnChar, interpSegmentSpec, styleGet]
  · rw [if_neg h, foldl_styleStep_get]
    cases styleGet (((splitOnChar ';' style).filterMap interpSegmentSpec).reverse) k with
    | some v => simp
    | none => simp [styleGet]

/-- Claim C2, counterexample to the claim as stated: on `"a=b=c;=d"` the code
maps `a` to `"b"` (the field between the first and second `=`), not to
`"b=c"` (everything after the first `=`) as the claim predicts; and the
segment `"=d"` is dropped because its key is empty, while the claim's
algorithm would keep it as an empty-key binding. -/
theorem c2_style_parser_counterexample :
    styleGet (parseStyle (str "a=b=c;=d")) (str "a") = some (str "b")
    ∧ styleGet (parseStyle (str "a=b=c;=d")) (str "a") ≠ some (str "b=c")
    ∧ styleGet (parseStyle (str "a=b=c;=d")) (str "") = none := by
  refine ⟨by decide, by decide, by decide⟩

/-- Claim C4 (amended): shape selection checks, in the fixed priority order
ellipse, rhombus, hexagon, triangle, cylinder, whether the `shape` style key
equals the keyword or the entire style string contains it as a substring;
the first keyword satisfying either wins (a present `shape` key does not
suppress the substring fallback); with no match a rectangle is produced,
rounded if and only if the `rounded` style key equals `"1"`. -/
theorem c4_shape_selection_amended :
    (∀ style, classifyShape style = classifyShapeSpec style)
    ∧ classifyShape (str "fillColor=red") = .rect false
    ∧ classifyShape (str "rounded=1") = .rect true
    ∧ classifyShape (str "shape=ellipse") = .ellipse
    ∧ classifyShape (str "aellipseb") = .ellipse := by
  refine ⟨?_, by decide, by decide, by decide, by decide⟩
  intro style
  unfold classifyShape classifyShapeSpec shapeKeywords
  cases h1 : shapeCond (str "ellipse") style
  <;> cases h2 : shapeCond (str "rhombus") style
  <;> cases h3 : shapeCond (str "hexagon") style
  <;> cases h4 : shapeCond (str "triangle") style
  <;> cases h5 : shapeCond (str "cylinder") style
  <;> simp [List.find?, h1, h2, h3, h4, h5]

/-- Claim C4, counterexample to the claim as stated: the style
`"shape=rhombus;label=ellipse"` has the `shape` key present with value
`"rhombus"`, so the claim predicts a rhombus; the code nevertheless matches
the substring `ellipse` of the whole style string at the higher-priority
ellipse branch and renders an ellipse. -/
theorem c4_shape_selection_counterexample :
    classifyShape (str "shape=rhombus;label=ellipse") = .ellipse
    ∧ shapeKeyOf (str "shape=rhombus;label=ellipse") = str "rhombus"
    ∧ ShapeKind.ellipse ≠ ShapeKind.rhombus := by
  refine ⟨by decide, by decide, by decide⟩

theorem foldl_bndsStep_boxes (cells : List Cell) (b : Bnds) :
    cells.foldl bndsStep b = ((vertexBoxes cells).map Prod.snd).foldl boxStep b := by
  induction cells generalizing b with
  | nil => simp [vertexBoxes]
  | cons c rest ih =>
    rw [List.foldl_cons]
    unfold vertexBoxes bndsStep
    cases hg : c.geometry with
    | none => simpa [List.filterMap_cons, hg, vertexBoxes] using ih b
    | some g =>
      cases hv : c.vertex
      · simpa [List.filterMap_cons, hg, hv, vertexBoxes] using ih b
      · simpa [List.filterMap_cons, hg, hv, vertexBoxes] using ih (boxStep b (boxOfGeom g))

theorem foldl_boxStep_some (boxes : List Box) (a b c d : ℚ) :
    boxes.foldl boxStep ⟨some a, some b, some c, some d⟩ =
      ⟨some ((boxes.map Box.x).foldl min a),
       some ((boxes.map Box.y).foldl min b),
       some ((boxes.map (fun bx => bx.x + bx.width)).foldl max c),
       some ((boxes.map (fun bx => bx.y + bx.height)).foldl max d)⟩ := by
  induction boxes generalizing a b c d with
  | nil => simp
  | cons bx rest ih =>
    rw [List.foldl_cons]
    simpa [boxStep, minO, maxO] using
      ih (min a bx.x) (min b bx.y) (max c (bx.x + bx.width)) (max d (bx.y + bx.height))

/-- Claim C5: every cell flagged as a vertex with a present geometry
contributes a box with width defaulting to 100, height to 40 and x/y to 0;
the viewport is the running min/max bounding rectangle over `x`, `y`,
`x+width`, `y+height` of all vertex boxes expanded by exactly 30 units on
every side, and equals the fixed `(0, 0, 400, 300)` canvas when the model
contains no vertex contribution. -/
theorem c5_viewport :
    (∀ cells, viewport cells = specViewport ((vertexBoxes cells).map Prod.snd))
    ∧ (∀ g, g.x = none → g.y = none → g.width = none → g.height = none →
        boxOfGeom g = ⟨0, 0, 100, 40⟩)
    ∧ (∀ cells, (∀ c ∈ cells, c.vertex = true → c.geometry = none) →
        viewport cells = (0, 0, 400, 300)) := by
  have hmain : ∀ cells, viewport cells = specViewport ((vertexBoxes cells).map Prod.snd) := by
    intro cells
    unfold viewport
    rw [foldl_bndsStep_boxes]
    cases hbs : (vertexBoxes cells).map Prod.snd with
    | nil => simp [specViewport]
    | cons b0 rest =>
      rw [List.foldl_cons]
      have h0 : boxStep ⟨none, none, none, none⟩ b0 =
          ⟨some b0.x, some b0.y, some (b0.x + b0.width), some (b0.y + b0.height)⟩ := by
        simp [boxStep, minO, maxO]
      rw [h0, foldl_boxStep_some]
      norm_num [specViewport]
  refine ⟨hmain, ?_, ?_⟩
  · intro g hx hy hw hh
    simp [boxOfGeom, hx, hy, hw, hh]
  · intro cells hnone
    rw [hmain]
    have hnil : vertexBoxes cells = [] := by
      unfold vertexBoxes
      rw [List.filterMap_eq_nil_iff]
      intro c hc
      cases hg : c.geometry with
      | none => simp
      | some g =>
        cases hv : c.vertex
        · simp
        · exact absurd (hnone c hc hv) (by simp [hg])
    simp [hnil, specViewport]

/-- Claim C5, concrete evaluation: a single vertex at `(0, 0, 100, 40)`
publishes the padded viewport `(-30, -30, 160, 100)`. -/
theorem c5_viewport_instance :
    viewport [⟨str "a", true, false,
      some ⟨some 0, some 0, some 100, some 40, none, none, []⟩,
      [], [], [], []⟩] = (-30, -30, 160, 100) := by
  norm_num [viewport, bndsStep, boxStep, boxOfGeom, minO, maxO]

/-- Claim C5, witness: the defaulted box of an attribute-less geometry, and
the fixed canvas for a vertex-free model, obtained from `c5_viewport`. -/
theorem c5_viewport_witness :
    boxOfGeom ⟨none, none, none, none, none, none, []⟩ = ⟨0, 0, 100, 40⟩
    ∧ viewport [] = (0, 0, 400, 300) :=
  ⟨c5_viewport.2.1 ⟨none, none, none, none, none, none, []⟩ rfl rfl rfl rfl,
   c5_viewport.2.2 [] (by simp)⟩

/-- Claim C3: for an edge whose endpoint boxes both resolve and which has no
explicit source/target point geometry, the rendered path endpoints are the
two box centers, each pulled toward the opposite endpoint by the clipping
ratio `min(halfWidth/|dx|, halfHeight/|dy|)` capped at 0.5 (stated for
`dx ≠ 0` and `dy ≠ 0`, where the claim's divisors are defined; the code
substitutes 1 for a zero component); and for the boxes
`a = (0, 0, 100, 40)` and `b = (200, 0, 100, 40)` the path endpoints
`(100, 20)` and `(200, 20)` lie strictly between the centers `(50, 20)` and
`(250, 20)`. -/
theorem c3_edge_clipping :
    (∀ (s t : Box) (dx dy : ℚ), dx = centerX t - centerX s → dy = centerY t - centerY s →
      dx ≠ 0 → dy ≠ 0 →
      edgeEndpoints s t =
        ((centerX s + dx * clipRatio s dx dy, centerY s + dy * clipRatio s dx dy),
         (centerX t - dx * clipRatio t dx dy, centerY t - dy * clipRatio t dx dy)))
    ∧ createEdgePath (some ⟨none, none, none, none, none, none, []⟩)
        (some ⟨0, 0, 100, 40⟩) (some ⟨200, 0, 100, 40⟩) =
        some [(100, 20), (200, 20)]
    ∧ ((50 : ℚ) < 100 ∧ (100 : ℚ) < 250 ∧ (50 : ℚ) < 200 ∧ (200 : ℚ) < 250) := by
  refine ⟨?_, ?_, by norm_num⟩
  · intro s t dx dy hdxe hdye hdx hdy
    subst hdxe
    subst hdye
    simp only [centerX, centerY] at hdx hdy ⊢
    have hpos : (t.x + t.width / 2 - (s.x + s.width / 2)) *
          (t.x + t.width / 2 - (s.x + s.width / 2)) +
        (t.y + t.height / 2 - (s.y + s.height / 2)) *
          (t.y + t.height / 2 - (s.y + s.height / 2)) > 0 := by
      have h1 := mul_self_pos.mpr hdx
      have h2 := mul_self_nonneg (t.y + t.height / 2 - (s.y + s.height / 2))
      linarith
    simp only [edgeEndpoints, clipRatio, absOr1, if_pos hpos, if_neg hdx, if_neg hdy]
  · norm_num [createEdgePath, edgeEndpoints, absOr1, min_def]

/-- Claim C3, witness: `c3_edge_clipping` applied to the boxes
`(0, 0, 10, 10)` and `(20, 30, 10, 10)`, whose center displacement is
`(20, 30)` with both components nonzero. -/
theorem c3_edge_clipping_witness :
    edgeEndpoints ⟨0, 0, 10, 10⟩ ⟨20, 30, 10, 10⟩ =
      ((centerX ⟨0, 0, 10, 10⟩ + 20 * clipRatio ⟨0, 0, 10, 10⟩ 20 30,
        centerY ⟨0, 0, 10, 10⟩ + 30 * clipRatio ⟨0, 0, 10, 10⟩ 20 30),
       (centerX ⟨20, 30, 10, 10⟩ - 20 * clipRatio ⟨20, 30, 10, 10⟩ 20 30,
        centerY ⟨20, 30, 10, 10⟩ - 30 * clipRatio ⟨20, 30, 10, 10⟩ 20 30)) :=
  c3_edge_clipping.1 ⟨0, 0, 10, 10⟩ ⟨20, 30, 10, 10⟩ 20 30
    (by norm_num [centerX]) (by norm_num [centerY]) (by norm_num) (by norm_num)

/-- Claim C6: a label whose stripped text splits into `n ≥ 2` lines renders
`n` text-line primitives, each at the horizontal box center, laid out from
`centerY - (n-1)*lineHeight/2` with line height `fontSize * 1.2` (hence
vertically centered as a block); a single-line label is rendered without the
multi-line wrapper. -/
theorem c6_label_layout :
    (∀ x y w h fs t, 2 ≤ (splitLines t).length →
      renderLabel x y w h fs t =
        .multi ((splitLines t).enum.map fun p =>
          ⟨x + w / 2,
           (y + h / 2 - (((splitLines t).length : ℚ) - 1) * (fs * (6 / 5)) / 2)
             + (p.1 : ℚ) * (fs * (6 / 5)),
           jsTrim p.2⟩))
    ∧ (∀ x y w h fs t, (splitLines t).length = 1 → renderLabel x y w h fs t = .single t)
    ∧ renderLabel 0 0 100 40 10 (str "ab\ncd") =
        .multi [⟨50, 14, str "ab"⟩, ⟨50, 26, str "cd"⟩]
    ∧ renderLabel 0 0 100 40 10 (str "a<br/>b<BR>c") =
        .multi [⟨50, 8, str "a"⟩, ⟨50, 20, str "b"⟩, ⟨50, 32, str "c"⟩]
    ∧ renderLabel 0 0 100 40 10 (str "ab") = .single (str "ab") := by
  refine ⟨?_, ?_, ?_, ?_, ?_⟩
  · intro x y w h fs t hn
    unfold renderLabel
    rw [if_neg (by omega)]
  · intro x y w h fs t h1
    unfold renderLabel
    rw [if_pos h1]
  · have hl : splitLines (str "ab\ncd") = [str "ab", str "cd"] := by decide
    unfold renderLabel
    rw [hl, if_neg (by decide)]
    simp only [List.enum, List.enumFrom, List.map, List.length_cons, List.length_nil,
      Label.multi.injEq, List.cons.injEq, Tspan.mk.injEq]
    norm_num
    all_goals decide
  · have hl : splitLines (str "a<br/>b<BR>c") = [str "a", str "b", str "c"] := by decide
    unfold renderLabel
    rw [hl, if_neg (by decide)]
    simp only [List.enum, List.enumFrom, List.map, List.length_cons, List.length_nil,
      Label.multi.injEq, List.cons.injEq, Tspan.mk.injEq]
    norm_num
    all_goals decide
  · have hl : splitLines (str "ab") = [str "ab"] := by decide
    unfold renderLabel
    rw [hl]
    simp

/-- Claim C6, witness: `c6_label_layout` applied to the two-line label
`"x\ny"` on the box `(0, 0, 2, 2)` with font size 1. -/
theorem c6_label_layout_witness :
    renderLabel 0 0 2 2 1 (str "x\ny") =
      .multi ((splitLines (str "x\ny")).enum.map fun p =>
        ⟨0 + 2 / 2,
         (0 + 2 / 2 - (((splitLines (str "x\ny")).length : ℚ) - 1) * (1 * (6 / 5)) / 2)
           + (p.1 : ℚ) * (1 * (6 / 5)),
         jsTrim p.2⟩) :=
  c6_label_layout.1 0 0 2 2 1 (str "x\ny") (by decide)

theorem extractStage_ne_decodeError {α : Type} (e : Str → Option α) (c msg : Str) :
    extractStage e c ≠ Except.error (RenderErr.decodeError msg) := by
  unfold extractStage
  by_cases h : hasSub mxTag c = true
  · rw [if_pos h]
    cases e c <;> simp
  · rw [if_neg h]
    simp

/-- Claim C7: a codec failure on a page payload is recovered locally — the
original payload is treated as already-plain XML and model extraction is
re-attempted on it; only when that fallback yields no model does the
pipeline fail, with `unparsableContent`; a `decodeError` never propagates
out of `_renderPage`. -/
theorem c7_decode_error_recovery :
    (∀ (α : Type) (d : Str → Except RenderErr Str) (e : Str → Option α)
        (p : Page α) (msg : Str),
      (renderPageContent d e p).1 ≠ Except.error (RenderErr.decodeError msg))
    ∧ (∀ (α : Type) (d : Str → Except RenderErr Str) (e : Str → Option α)
        (p : Page α) (err : RenderErr),
      p.embedded = none → d p.text = Except.error err →
      (renderPageContent d e p).1 = extractStage e p.text)
    ∧ (∀ (α : Type) (d : Str → Except RenderErr Str) (e : Str → Option α)
        (p : Page α) (err : RenderErr),
      p.embedded = none → d p.text = Except.error err → e p.text = none →
      (renderPageContent d e p).1 = Except.error RenderErr.unparsableContent) := by
  have hrec : ∀ (α : Type) (d : Str → Except RenderErr Str) (e : Str → Option α)
      (p : Page α) (err : RenderErr),
      p.embedded = none → d p.text = Except.error err →
      (renderPageContent d e p).1 = extractStage e p.text := by
    intro α d e p err hpe hd
    unfold renderPageContent
    rw [hpe]
    by_cases hc : p.text ≠ [] ∧ ¬hasSub mxTag p.text = true
    · rw [if_pos hc, hd]
    · rw [if_neg hc]
  refine ⟨?_, hrec, ?_⟩
  · intro α d e p msg
    unfold renderPageContent
    cases p.embedded with
    | some m => simp
    | none =>
      by_cases hc : p.text ≠ [] ∧ ¬hasSub mxTag p.text = true
      · rw [if_pos hc]
        cases d p.text with
        | ok s => simpa using extractStage_ne_decodeError e s msg
        | error err => simpa using extractStage_ne_decodeError e p.text msg
      · rw [if_neg hc]
        simpa using extractStage_ne_decodeError e p.text msg
  · intro α d e p err hpe hd he
    rw [hrec α d e p err hpe hd]
    unfold extractStage
    by_cases h : hasSub mxTag p.text = true
    · rw [if_pos h, he]
    · rw [if_neg h]

/-- Claim C7, witness: a codec that always fails, on a payload lacking the
model marker, yields the fallback extraction of the original payload. -/
theorem c7_decode_error_recovery_witness :
    (renderPageContent (fun _ => Except.error (RenderErr.decodeError (str "bad")))
        (fun _ : Str => (none : Option Nat)) ⟨none, str "x"⟩).1 =
      extractStage (fun _ : Str => (none : Option Nat)) (str "x") :=
  c7_decode_error_recovery.2.1 Nat
    (fun _ => Except.error (RenderErr.decodeError (str "bad")))
    (fun _ => none) ⟨none, str "x"⟩ (RenderErr.decodeError (str "bad")) rfl rfl

/-- Claim C10: a page with an embedded uncompressed model element, or whose
non-empty text payload already contains `<mxGraphModel`, is rendered
without ever invoking the codec; decompression is attempted exactly when
the page has no embedded model and its payload is non-empty and lacks the
marker substring. -/
theorem c10_decompress_guard :
    (∀ (α : Type) (d : Str → Except RenderErr Str) (e : Str → Option α)
        (p : Page α) (m : α),
      p.embedded = some m → renderPageContent d e p = (Except.ok m, false))
    ∧ (∀ (α : Type) (d : Str → Except RenderErr Str) (e : Str → Option α)
        (p : Page α),
      p.embedded = none → hasSub mxTag p.text = true →
      renderPageContent d e p = (extractStage e p.text, false))
    ∧ (∀ (α : Type) (d : Str → Except RenderErr Str) (e : Str → Option α)
        (p : Page α),
      (renderPageContent d e p).2 = true ↔
        p.embedded = none ∧ p.text ≠ [] ∧ hasSub mxTag p.text = false) := by
  refine ⟨?_, ?_, ?_⟩
  · intro α d e p m hm
    unfold renderPageContent
    rw [hm]
  · intro α d e p hpe hsub
    unfold renderPageContent
    rw [hpe]
    rw [if_neg]
    simp [hsub]
  · intro α d e p
    unfold renderPageContent
    cases hpe : p.embedded with
    | some m => simp [hpe]
    | none =>
      by_cases hc : p.text ≠ [] ∧ ¬hasSub mxTag p.text = true
      · rw [if_pos hc]
        cases d p.text with
        | ok s => simpa [hpe] using And.intro hc.1 (by simpa using hc.2)
        | error err => simpa [hpe] using And.intro hc.1 (by simpa using hc.2)
      · rw [if_neg hc]
        simp only [hpe, Bool.not_eq_true] at hc ⊢
        simp only [not_and, ne_eq, not_not] at hc
        constructor
        · intro h
          exact absurd h (by simp)
        · rintro ⟨-, hne, hfalse⟩
          exact absurd (hc (by simpa using hne)) (by simp [hfalse])

/-- Claim C10, witness: an embedded model renders directly with the codec
uninvoked, and a payload already containing `<mxGraphModel` skips the codec
and is extracted directly. -/
theorem c10_decompress_guard_witness :
    renderPageContent (fun s => Except.ok s) (fun _ : Str => (none : Option Nat))
        ⟨some 7, str "x"⟩ = (Except.ok 7, false)
    ∧ renderPageContent (fun s => Except.ok s) (fun _ : Str => (none : Option Nat))
        ⟨none, mxTag⟩ = (extractStage (fun _ : Str => (none : Option Nat)) mxTag, false) :=
  ⟨c10_decompress_guard.1 Nat (fun s => Except.ok s) (fun _ => none) ⟨some 7, str "x"⟩ 7 rfl,
   c10_decompress_guard.2.1 Nat (fun s => Except.ok s) (fun _ => none) ⟨none, mxTag⟩
     rfl (by decide)⟩

/-- Claim C8: empty or whitespace-only input fails `emptyDocument` before
any markup parsing is attempted (the result does not depend on the parser);
input whose markup parse produces a parse-error marker node fails
`invalidDocument` carrying the parser's own diagnostic text. -/
theorem c8_empty_and_invalid_document :
    (∀ (δ : Type) (p1 p2 : Str → ParseOutcome δ) (c : Str),
      c = [] ∨ jsTrim c = [] →
      loadDiagram p1 c = Except.error LoadErr.emptyDocument
        ∧ loadDiagram p1 c = loadDiagram p2 c)
    ∧ (∀ (δ : Type) (parse : Str → ParseOutcome δ) (c diag : Str),
      ¬(c = [] ∨ jsTrim c = []) → parse c = ParseOutcome.parseError diag →
      loadDiagram parse c =
        Except.error (LoadErr.invalidDocument (str "Invalid XML: " ++ diag))) := by
  constructor
  · intro δ p1 p2 c hc
    unfold loadDiagram
    rw [if_pos hc, if_pos hc]
    exact ⟨rfl, rfl⟩
  · intro δ parse c diag hc hp
    unfold loadDiagram
    rw [if_neg hc, hp]

/-- Claim C8, witness: whitespace-only input fails `emptyDocument` for an
arbitrary parser, and a parse-error outcome fails `invalidDocument` with
the diagnostic embedded in the message. -/
theorem c8_empty_and_invalid_document_witness :
    loadDiagram (fun _ : Str => ParseOutcome.ok (0 : Nat)) (str " ") =
      Except.error LoadErr.emptyDocument
    ∧ loadDiagram (fun _ : Str => (ParseOutcome.parseError (str "boom") : ParseOutcome Nat))
        (str "<x") =
      Except.error (LoadErr.invalidDocument (str "Invalid XML: " ++ str "boom")) :=
  ⟨(c8_empty_and_invalid_document.1 Nat (fun _ => ParseOutcome.ok 0)
      (fun _ => ParseOutcome.ok 0) (str " ") (Or.inr (by decide))).1,
   c8_empty_and_invalid_document.2 Nat (fun _ => ParseOutcome.parseError (str "boom"))
     (str "<x") (str "boom") (by decide) rfl⟩

/-- Claim C9 (amended): in every state reachable by page navigation from a
freshly loaded document the page index lies within `[0, totalPages - 1]`;
a next-page request at the last page and a previous-page request at page 0
are no-ops; in-range requests move the index by exactly one. (A
content-change reload that decreases the page count can leave the index out
of range, because `_renderDiagram` resets `_totalPages` without clamping
`_currentPage`.) -/
theorem c9_page_navigation_amended :
    (∀ s, PCNavReach s → s.currentPage < s.totalPages)
    ∧ (∀ s : PCState, s.currentPage = s.totalPages - 1 → pcNext s = s)
    ∧ (∀ s : PCState, s.currentPage = 0 → pcPrev s = s)
    ∧ (∀ s : PCState, s.currentPage < s.totalPages - 1 →
        pcNext s = ⟨s.currentPage + 1, s.totalPages⟩)
    ∧ (∀ s : PCState, 0 < s.currentPage →
        pcPrev s = ⟨s.currentPage - 1, s.totalPages⟩) := by
  refine ⟨?_, ?_, ?_, ?_, ?_⟩
  · intro s h
    induction h with
    | loaded n =>
      unfold pcLoad pcInit
      split
      · simp
      · simp
        omega
    | next h ih =>
      unfold pcNext
      split
      · simp
        omega
      · exact ih
    | prev h ih =>
      unfold pcPrev
      split
      · simp
        omega
      · exact ih
  · intro s h
    unfold pcNext
    rw [if_neg (by omega)]
  · intro s h
    unfold pcPrev
    rw [if_neg (by omega)]
  · intro s h
    unfold pcNext
    rw [if_pos h]
  · intro s h
    unfold pcPrev
    rw [if_pos h]

/-- Claim C9, counterexample to the claim as stated: the state
`(currentPage 2, totalPages 1)` is reachable (load a 3-page document,
navigate to page 2, then reload after the document shrank to one page —
`_renderDiagram` sets `_totalPages` without resetting `_currentPage`), and
its index is not within `[0, totalPages - 1]`. -/
theorem c9_page_invariant_counterexample :
    PCReach ⟨2, 1⟩ ∧ ¬((⟨2, 1⟩ : PCState).currentPage ≤ (⟨2, 1⟩ : PCState).totalPages - 1) := by
  constructor
  · have h0 : PCReach ⟨0, 3⟩ := PCReach.load 3 PCReach.init
    have h1 : PCReach ⟨1, 3⟩ := PCReach.next h0
    have h2 : PCReach ⟨2, 3⟩ := PCReach.next h1
    exact PCReach.load 1 h2
  · decide

/-- Claim C9, witness: `c9_page_navigation_amended` applied at a freshly
loaded two-page document and at the navigation boundary states. -/
theorem c9_page_navigation_amended_witness :
    (pcLoad 2 pcInit).currentPage < (pcLoad 2 pcInit).totalPages
    ∧ pcNext ⟨1, 2⟩ = ⟨1, 2⟩
    ∧ pcPrev ⟨0, 2⟩ = ⟨0, 2⟩
    ∧ pcNext ⟨0, 2⟩ = ⟨1, 2⟩
    ∧ pcPrev ⟨1, 2⟩ = ⟨0, 2⟩ :=
  ⟨c9_page_navigation_amended.1 (pcLoad 2 pcInit) (PCNavReach.loaded 2),
   c9_page_navigation_amended.2.1 ⟨1, 2⟩ rfl,
   c9_page_navigation_amended.2.2.1 ⟨0, 2⟩ rfl,
   c9_page_navigation_amended.2.2.2.1 ⟨0, 2⟩ (by decide),
   c9_page_navigation_amended.2.2.2.2 ⟨1, 2⟩ (by decide)⟩

theorem hexVal_hexDigitChar (n : Nat) (hn : n < 16) :
    hexVal (hexDigitChar n) = some n := by
  interval_cases n <;> decide

theorem b64_char_props (n : Nat) (hn : n < 64) :
    b64CharVal (b64Char n) = some n
    ∧ fromUrlSafe (toUrlSafe (b64Char n)) = b64Char n
    ∧ b64Char n ≠ '=' := by
  interval_cases n <;> decide

theorem charUtf8_lt (n : Nat) (hn : n < 1114112) : ∀ b ∈ charUtf8 n, b < 256 := by
  intro b hb
  unfold charUtf8 at hb
  by_cases h1 : n < 128
  · simp [h1] at hb
    omega
  · by_cases h2 : n < 2048
    · simp [h1, h2] at hb
      rcases hb with hb | hb <;> omega
    · by_cases h3 : n < 65536
      · simp [h1, h2, h3] at hb
        rcases hb with hb | hb | hb <;> omega
      · simp [h1, h2, h3] at hb
        rcases hb with hb | hb | hb | hb <;> omega

theorem charUtf8_length_pos (n : Nat) : 1 ≤ (charUtf8 n).length := by
  unfold charUtf8
  split_ifs <;> simp

theorem utf8DecodeOne_charUtf8 (n : Nat) (hn : n < 1114112) (rest : List Nat) :
    utf8DecodeOne (charUtf8 n ++ rest) = some (n, rest) := by
  unfold charUtf8
  by_cases h1 : n < 128
  · rw [if_pos h1]
    show utf8DecodeOne (n :: rest) = some (n, rest)
    simp only [utf8DecodeOne]
    rw [if_pos h1]
  · rw [if_neg h1]
    by_cases h2 : n < 2048
    · rw [if_pos h2]
      show utf8DecodeOne ((192 + n / 64) :: (128 + n % 64) :: rest) = some (n, rest)
      simp only [utf8DecodeOne]
      rw [if_neg (by omega), if_neg (by omega), if_pos (by omega), if_pos (by omega)]
      simp only [Option.some.injEq, Prod.mk.injEq]
      exact ⟨by omega, trivial⟩
    · rw [if_neg h2]
      by_cases h3 : n < 65536
      · rw [if_pos h3]
        show utf8DecodeOne
            ((224 + n / 4096) :: (128 + n / 64 % 64) :: (128 + n % 64) :: rest) =
          some (n, rest)
        simp only [utf8DecodeOne]
        rw [if_neg (by omega), if_neg (by omega), if_neg (by omega), if_pos (by omega),
          if_pos (by constructor <;> constructor <;> omega)]
        simp only [Option.some.injEq, Prod.mk.injEq]
        exact ⟨by omega, trivial⟩
      · rw [if_neg h3]
        show utf8DecodeOne
            ((240 + n / 262144) :: (128 + n / 4096 % 64) :: (128 + n / 64 % 64) ::
              (128 + n % 64) :: rest) =
          some (n, rest)
        simp only [utf8DecodeOne]
        rw [if_neg (by omega), if_neg (by omega), if_neg (by omega), if_neg (by omega),
          if_pos (by omega),
          if_pos (by refine ⟨⟨by omega, by omega⟩, ⟨by omega, by omega⟩, by omega, by omega⟩)]
        simp only [Option.some.injEq, Prod.mk.injEq]
        exact ⟨by omega, trivial⟩

theorem charUtf8_ne_nil (n : Nat) : charUtf8 n ≠ [] := by
  have hp := charUtf8_length_pos n
  intro h
  rw [h] at hp
  simp at hp

theorem utf8DecodeAux_eq (fuel : Nat) (l : List Nat) (hl : l ≠ []) :
    utf8DecodeAux (fuel + 1) l =
      match utf8DecodeOne l with
      | some (n, rest) =>
        if Nat.isValidChar n then
          (utf8DecodeAux fuel rest).map (fun cs => Char.ofNat n :: cs)
        else none
      | none => none := by
  cases l with
  | nil => exact absurd rfl hl
  | cons b bs => rfl

theorem utf8Encode_cons (c : Char) (cs : Str) :
    utf8Encode (c :: cs) = charUtf8 c.toNat ++ utf8Encode cs := rfl

theorem char_toNat_lt (c : Char) : c.toNat < 1114112 := by
  have h : c.val.isValidChar := c.valid
  have he : c.toNat = c.val.toNat := rfl
  rcases h with h | h <;> omega

theorem length_le_utf8Encode (cs : Str) : cs.length ≤ (utf8Encode cs).length := by
  induction cs with
  | nil => simp [utf8Encode]
  | cons c cs ih =>
    rw [utf8Encode_cons]
    simp only [List.length_append, List.length_cons]
    have := charUtf8_length_pos c.toNat
    omega

theorem utf8DecodeAux_encode (cs : Str) : ∀ (fuel : Nat), cs.length ≤ fuel →
    utf8DecodeAux fuel (utf8Encode cs) = some cs := by
  induction cs with
  | nil =>
    intro fuel _
    cases fuel <;> rfl
  | cons c cs ih =>
    intro fuel h
    cases fuel with
    | zero => exact absurd h (by simp)
    | succ f =>
      have hne : charUtf8 c.toNat ++ utf8Encode cs ≠ [] := by
        simp [charUtf8_ne_nil]
      rw [utf8Encode_cons, utf8DecodeAux_eq f _ hne,
        utf8DecodeOne_charUtf8 c.toNat (char_toNat_lt c)]
      show (if Nat.isValidChar c.toNat then
          (utf8DecodeAux f (utf8Encode cs)).map (fun cs2 => Char.ofNat c.toNat :: cs2)
        else none) = some (c :: cs)
      rw [if_pos (show Nat.isValidChar c.toNat from c.valid),
        ih f (by simp only [List.length_cons] at h; omega)]
      simp [Char.ofNat_toNat]

theorem utf8_roundtrip (cs : Str) : utf8Decode (utf8Encode cs) = some cs :=
  utf8DecodeAux_encode cs _ (length_le_utf8Encode cs)

theorem b64Encode_map_urlsafe : (l : List Nat) → (∀ b ∈ l, b < 256) →
    (b64Encode l).map (fun c => fromUrlSafe (toUrlSafe c)) = b64Encode l
  | [], _ => rfl
  | [a], h => by
    have ha : a < 256 := h a (by simp)
    have h1 := (b64_char_props (a / 4) (by omega)).2.1
    have h2 := (b64_char_props (a % 4 * 16) (by omega)).2.1
    have he : fromUrlSafe (toUrlSafe '=') = '=' := by decide
    simp [b64Encode, h1, h2, he]
  | [a, b], h => by
    have ha : a < 256 := h a (by simp)
    have hb : b < 256 := h b (by simp)
    have h1 := (b64_char_props (a / 4) (by omega)).2.1
    have h2 := (b64_char_props (a % 4 * 16 + b / 16) (by omega)).2.1
    have h3 := (b64_char_props (b % 16 * 4) (by omega)).2.1
    have he : fromUrlSafe (toUrlSafe '=') = '=' := by decide
    simp [b64Encode, h1, h2, h3, he]
  | a :: b :: c :: rest, h => by
    have ha : a < 256 := h a (by simp)
    have hb : b < 256 := h b (by simp)
    have hc : c < 256 := h c (by simp)
    have ih := b64Encode_map_urlsafe rest (fun x hx => h x (by simp [hx]))
    have h1 := (b64_char_props (a / 4) (by omega)).2.1
    have h2 := (b64_char_props (a % 4 * 16 + b / 16) (by omega)).2.1
    have h3 := (b64_char_props (b % 16 * 4 + c / 64) (by omega)).2.1
    have h4 := (b64_char_props (c % 64) (by omega)).2.1
    simp [b64Encode, h1, h2, h3, h4, ih]

theorem b64Decode_encode : (l : List Nat) → (∀ b ∈ l, b < 256) →
    b64Decode (b64Encode l) = some l
  | [], _ => rfl
  | [a], h => by
    have ha : a < 256 := h a (by simp)
    have h1 := (b64_char_props (a / 4) (by omega)).1
    have h2 := (b64_char_props (a % 4 * 16) (by omega)).1
    simp [b64Encode, b64Decode, h1, h2]
    omega
  | [a, b], h => by
    have ha : a < 256 := h a (by simp)
    have hb : b < 256 := h b (by simp)
    have h1 := (b64_char_props (a / 4) (by omega)).1
    have h2 := (b64_char_props (a % 4 * 16 + b / 16) (by omega)).1
    have h3 := (b64_char_props (b % 16 * 4) (by omega)).1
    have h3ne := (b64_char_props (b % 16 * 4) (by omega)).2.2
    simp [b64Encode, b64Decode, h1, h2, h3, h3ne]
    constructor <;> omega
  | a :: b :: c :: rest, h => by
    have ha : a < 256 := h a (by simp)
    have hb : b < 256 := h b (by simp)
    have hc : c < 256 := h c (by simp)
    have ih := b64Decode_encode rest (fun x hx => h x (by simp [hx]))
    have h1 := (b64_char_props (a / 4) (by omega)).1
    have h2 := (b64_char_props (a % 4 * 16 + b / 16) (by omega)).1
    have h3 := (b64_char_props (b % 16 * 4 + c / 64) (by omega)).1
    have h4 := (b64_char_props (c % 64) (by omega)).1
    have h3ne := (b64_char_props (b % 16 * 4 + c / 64) (by omega)).2.2
    have h4ne := (b64_char_props (c % 64) (by omega)).2.2
    simp [b64Encode, b64Decode, h1, h2, h3, h4, h3ne, h4ne, ih]
    refine ⟨by omega, by omega, by omega⟩

theorem b64Decode_urlsafe_encode (l : List Nat) (h : ∀ b ∈ l, b < 256) :
    b64Decode (((b64Encode l).map toUrlSafe).map fromUrlSafe) = some l := by
  rw [List.map_map]
  have hmap : List.map (fromUrlSafe ∘ toUrlSafe) (b64Encode l) = b64Encode l := by
    simpa [Function.comp] using b64Encode_map_urlsafe l h
  rw [hmap, b64Decode_encode l h]

theorem encTokens_cons (c : Char) (cs : Str) :
    encTokens (c :: cs) =
      (if uriUnreserved c then [PctTok.ch c] else (charUtf8 c.toNat).map PctTok.byte)
        ++ encTokens cs := rfl

theorem percentEncode_cons (c : Char) (cs : Str) :
    percentEncode (c :: cs) = percentEncodeChar c ++ percentEncode cs := rfl

theorem pctTokens_cons_ne (c : Char) (rest : Str) (hc : c ≠ '%') :
    pctTokens (c :: rest) = (pctTokens rest).map (fun ts => PctTok.ch c :: ts) := by
  cases rest with
  | nil => simp [pctTokens, if_neg hc]
  | cons h1 rest1 =>
    cases rest1 with
    | nil => simp [pctTokens, if_neg hc]
    | cons h2 rest2 => simp [pctTokens, if_neg hc]

theorem pctTokens_esc (b : Nat) (hb : b < 256) (rest : Str) :
    pctTokens (escByte b ++ rest) = (pctTokens rest).map (fun ts => PctTok.byte b :: ts) := by
  have h1 := hexVal_hexDigitChar (b / 16) (by omega)
  have h2 := hexVal_hexDigitChar (b % 16) (by omega)
  show pctTokens ('%' :: hexDigitChar (b / 16) :: hexDigitChar (b % 16) :: rest) = _
  simp [pctTokens, h1, h2]
  rw [show b / 16 * 16 + b % 16 = b from by omega]

theorem pctTokens_escBytes : (bs : List Nat) → (∀ b ∈ bs, b < 256) → ∀ rest : Str,
    pctTokens (bs.flatMap escByte ++ rest) =
      (pctTokens rest).map (fun ts => bs.map PctTok.byte ++ ts)
  | [], _ => by
    intro rest
    simp
  | b :: bs, h => by
    intro rest
    have hb : b < 256 := h b (by simp)
    have ih := pctTokens_escBytes bs (fun x hx => h x (by simp [hx])) rest
    rw [show (b :: bs).flatMap escByte ++ rest = escByte b ++ (bs.flatMap escByte ++ rest) from by
      simp [List.flatMap_cons]]
    rw [pctTokens_esc b hb _, ih, Option.map_map]
    rfl

theorem pctTokens_encode (cs : Str) : pctTokens (percentEncode cs) = some (encTokens cs) := by
  induction cs with
  | nil => rfl
  | cons c cs ih =>
    rw [percentEncode_cons, encTokens_cons]
    by_cases hu : uriUnreserved c = true
    · have hc : c ≠ '%' := by
        intro he
        rw [he] at hu
        exact absurd hu (by decide)
      rw [show percentEncodeChar c ++ percentEncode cs = c :: percentEncode cs from by
        simp [percentEncodeChar, hu]]
      rw [pctTokens_cons_ne c _ hc, ih]
      simp [hu]
    · rw [show percentEncodeChar c = (charUtf8 c.toNat).flatMap escByte from by
        simp [percentEncodeChar, hu]]
      rw [pctTokens_escBytes (charUtf8 c.toNat) (charUtf8_lt c.toNat (char_toNat_lt c)) _, ih]
      simp [hu]

theorem pctDetokAux_charUtf8 (n : Nat) (hval : Nat.isValidChar n) (fuel : Nat)
    (ts : List PctTok) :
    pctDetokAux (fuel + 1) ((charUtf8 n).map PctTok.byte ++ ts) =
      (pctDetokAux fuel ts).map (fun cs => Char.ofNat n :: cs) := by
  have hn : n < 1114112 := by rcases hval with h | h <;> omega
  unfold charUtf8
  by_cases h1 : n < 128
  · rw [if_pos h1]
    show pctDetokAux (fuel + 1) (PctTok.byte n :: ts) = _
    simp only [pctDetokAux, pctDecodeOne]
    rw [if_pos h1]
    simp [hval]
  · rw [if_neg h1]
    by_cases h2 : n < 2048
    · rw [if_pos h2]
      show pctDetokAux (fuel + 1)
          (PctTok.byte (192 + n / 64) :: PctTok.byte (128 + n % 64) :: ts) = _
      simp only [pctDetokAux, pctDecodeOne]
      rw [if_neg (by omega), if_neg (by omega), if_pos (by omega), if_pos (by omega)]
      rw [show (192 + n / 64 - 192) * 64 + (128 + n % 64 - 128) = n from by omega]
      simp [hval]
    · rw [if_neg h2]
      by_cases h3 : n < 65536
      · rw [if_pos h3]
        show pctDetokAux (fuel + 1)
            (PctTok.byte (224 + n / 4096) :: PctTok.byte (128 + n / 64 % 64) ::
              PctTok.byte (128 + n % 64) :: ts) = _
        simp only [pctDetokAux, pctDecodeOne]
        rw [if_neg (by omega), if_neg (by omega), if_neg (by omega), if_pos (by omega),
          if_pos (by omega)]
        rw [show (224 + n / 4096 - 224) * 4096 + (128 + n / 64 % 64 - 128) * 64 +
            (128 + n % 64 - 128) = n from by omega]
        simp [hval]
      · rw [if_neg h3]
        show pctDetokAux (fuel + 1)
            (PctTok.byte (240 + n / 262144) :: PctTok.byte (128 + n / 4096 % 64) ::
              PctTok.byte (128 + n / 64 % 64) :: PctTok.byte (128 + n % 64) :: ts) = _
        simp only [pctDetokAux, pctDecodeOne]
        rw [if_neg (by omega), if_neg (by omega), if_neg (by omega), if_neg (by omega),
          if_pos (by omega), if_pos (by omega)]
        rw [show (240 + n / 262144 - 240) * 262144 + (128 + n / 4096 % 64 - 128) * 4096 +
            (128 + n / 64 % 64 - 128) * 64 + (128 + n % 64 - 128) = n from by omega]
        simp [hval]

theorem length_le_encTokens (cs : Str) : cs.length ≤ (encTokens cs).length := by
  induction cs with
  | nil => simp [encTokens]
  | cons c cs ih =>
    rw [encTokens_cons]
    simp only [List.length_append, List.length_cons]
    by_cases hu : uriUnreserved c = true
    · simp [hu]
      omega
    · simp only [if_neg hu, List.length_map]
      have := charUtf8_length_pos c.toNat
      omega

theorem pctDetokAux_encTokens (cs : Str) : ∀ (fuel : Nat), cs.length ≤ fuel →
    pctDetokAux fuel (encTokens cs) = some cs := by
  induction cs with
  | nil =>
    intro fuel _
    cases fuel <;> rfl
  | cons c cs ih =>
    intro fuel h
    cases fuel with
    | zero => exact absurd h (by simp)
    | succ f =>
      have hrec := ih f (by simp only [List.length_cons] at h; omega)
      rw [encTokens_cons]
      by_cases hu : uriUnreserved c = true
      · rw [if_pos hu]
        show pctDetokAux (f + 1) (PctTok.ch c :: encTokens cs) = some (c :: cs)
        simp only [pctDetokAux]
        rw [hrec]
        rfl
      · rw [if_neg hu]
        rw [pctDetokAux_charUtf8 c.toNat (show Nat.isValidChar c.toNat from c.valid) f _,
          hrec]
        simp [Char.ofNat_toNat]

theorem percent_roundtrip (cs : Str) : percentDecode (percentEncode cs) = some cs := by
  unfold percentDecode
  rw [pctTokens_encode]
  simp only [Option.some_bind]
  exact pctDetokAux_encTokens cs _ (length_le_encTokens cs)

/-- Claim C1: decoding (URL-safe alphabet translation, base64 decode,
raw-deflate inflation consumed as an ordered chunk sequence and
concatenated, UTF-8 decode, percent-decode) inverts the forward transform
(URI-component-encode, raw-deflate compress, base64url-encode) on every
string, assuming the platform deflate/inflate pair round-trips on the
payload (raw-deflate itself is a platform primitive, abstracted here) and
produces bytes. -/
theorem c1_codec_roundtrip :
    ∀ (deflate : List Nat → List Nat) (inflate : List Nat → Option (List (List Nat)))
      (s : Str) (chunks : List (List Nat)),
      (∀ b ∈ deflate (utf8Encode (percentEncode s)), b < 256) →
      inflate (deflate (utf8Encode (percentEncode s))) = some chunks →
      chunks.flatten = utf8Encode (percentEncode s) →
      decompressDiagram inflate (forwardTransform deflate s) = some s := by
  intro deflate inflate s chunks hbytes hinf hflat
  unfold decompressDiagram forwardTransform
  rw [b64Decode_urlsafe_encode _ hbytes]
  simp only [Option.some_bind]
  rw [hinf]
  simp only [Option.some_bind]
  rw [hflat, utf8_roundtrip]
  simp only [Option.some_bind]
  exact percent_roundtrip s

/-- Claim C1, witness: `c1_codec_roundtrip` at the XML string `"<a>"` with
the identity deflate/inflate pair (one output chunk). -/
theorem c1_codec_roundtrip_witness :
    decompressDiagram (fun bytes => some [bytes]) (forwardTransform id (str "<a>")) =
      some (str "<a>") :=
  c1_codec_roundtrip id (fun bytes => some [bytes]) (str "<a>")
    [utf8Encode (percentEncode (str "<a>"))]
    (by decide) rfl (by simp)
